import Mathlib

/-
Verification of openage's util/fslike/filecollection.py (class FileCollection).

Modelling choices:
- A path segment is an opaque byte string, modelled as a list of naturals.
- An OrderedDict is modelled as an insertion-ordered association list:
  updating an existing key keeps its position, inserting a fresh key appends.
- The directory tree (the pair of OrderedDicts held in rootentries and in
  every subdir entry) is the inductive type DirNode.
- A FileEntry is the 4-slot record stored by FileCollectionPath.add_file;
  each slot is either absent (the provider is None / raises
  UnsupportedOperation) or yields an abstract value, modelled as Option Nat.
- Python exceptions become the Err type; each error carries the path (the
  parts list used to build the exception message), with the empty list
  standing for the fixed root messages.
- In-place mutation is made explicit: mutating operations return the result
  together with the whole tree after the call, including the partial
  mutations Python leaves behind when get_direntries(create=True) creates
  some parent directories and then raises.
- get_direntries is split by its create flag: resolveDir is the
  create=False walk, resolveCreateMod is the create=True walk followed by
  the in-place update the caller performs on the returned entries pair.
-/

namespace FileCollection

abbrev Bytes := List Nat

/-- FileEntry as registered by FileCollectionPath.add_file: the tuple
(open_r, open_w, filesize, mtime), each slot optional. -/
structure FileEntry where
  open_r : Option Nat
  open_w : Option Nat
  size : Option Nat
  mtime : Option Nat
deriving DecidableEq

/-- Python exception raised by FileCollection operations, with the offending
path. NotEmpty stands for the IOError raised on removing a non-empty
directory. -/
inductive Err where
  | NotFound (p : List Bytes)
  | Exists (p : List Bytes)
  | IsADirectory (p : List Bytes)
  | NotADirectory (p : List Bytes)
  | UnsupportedOperation (p : List Bytes)
  | NotEmpty (p : List Bytes)
deriving DecidableEq

deriving instance DecidableEq for Except

/-- A directory node: the (fileentries, subdirentries) pair of OrderedDicts. -/
inductive DirNode where
  | node (files : List (Bytes × FileEntry)) (subdirs : List (Bytes × DirNode)) : DirNode

def DirNode.files : DirNode → List (Bytes × FileEntry)
  | .node fs _ => fs

def DirNode.subdirs : DirNode → List (Bytes × DirNode)
  | .node _ ds => ds

@[simp] theorem DirNode.files_node (fs : List (Bytes × FileEntry))
    (ds : List (Bytes × DirNode)) : (DirNode.node fs ds).files = fs := rfl

@[simp] theorem DirNode.subdirs_node (fs : List (Bytes × FileEntry))
    (ds : List (Bytes × DirNode)) : (DirNode.node fs ds).subdirs = ds := rfl

/-- OrderedDict membership lookup: first pair with the given key. -/
def alookup {α : Type} (k : Bytes) : List (Bytes × α) → Option α
  | [] => none
  | (k2, v) :: rest => if k2 = k then some v else alookup k rest

/-- OrderedDict assignment d[k] = v: replace in place if present, else append. -/
def aset {α : Type} (k : Bytes) (v : α) : List (Bytes × α) → List (Bytes × α)
  | [] => [(k, v)]
  | (k2, v2) :: rest => if k2 = k then (k, v) :: rest else (k2, v2) :: aset k v rest

/-- OrderedDict deletion del d[k]. -/
def adel {α : Type} (k : Bytes) : List (Bytes × α) → List (Bytes × α)
  | [] => []
  | (k2, v2) :: rest => if k2 = k then rest else (k2, v2) :: adel k rest

/-- get_direntries with create=False: walk the subdir maps; a missing segment
raises FileNotFoundError naming the path up to and including it. The pre
argument accumulates the segments already consumed, for error messages. -/
def resolveDir (pre : List Bytes) (t : DirNode) (parts : List Bytes) : Except Err DirNode :=
  match parts with
  | [] => .ok t
  | s :: rest =>
    match alookup s t.subdirs with
    | some child => resolveDir (pre ++ [s]) child rest
    | none => .error (.NotFound (pre ++ [s]))

/-- get_direntries with create=True, followed by the update f the caller
performs in place on the returned entries pair. Missing directories are
created on the way down (and persist even when a later step fails); a
segment already present as a file raises FileExistsError naming the
offending path. The second component is the whole tree after the call. -/
def resolveCreateMod (pre : List Bytes) (t : DirNode) (parts : List Bytes)
    (f : DirNode → Except Err DirNode) : Except Err Unit × DirNode :=
  match parts with
  | [] =>
    match f t with
    | .ok t2 => (.ok (), t2)
    | .error e => (.error e, t)
  | s :: rest =>
    match alookup s t.subdirs with
    | some child =>
      let r := resolveCreateMod (pre ++ [s]) child rest f
      (r.1, .node t.files (aset s r.2 t.subdirs))
    | none =>
      if (alookup s t.files).isSome then
        (.error (.Exists (pre ++ [s])), t)
      else
        let r := resolveCreateMod (pre ++ [s]) (.node [] []) rest f
        (r.1, .node t.files (aset s r.2 t.subdirs))

/-- get_direntries with create=False followed by an in-place update f of the
returned entries pair, written back into the tree. Used by rmdir and
unlink, which never mutate anything before their single deletion. -/
def modAt (pre : List Bytes) (t : DirNode) (parts : List Bytes)
    (f : DirNode → Except Err DirNode) : Except Err DirNode :=
  match parts with
  | [] => f t
  | s :: rest =>
    match alookup s t.subdirs with
    | some child =>
      match modAt (pre ++ [s]) child rest f with
      | .ok c2 => .ok (.node t.files (aset s c2 t.subdirs))
      | .error e => .error e
    | none => .error (.NotFound (pre ++ [s]))

/-- The rootentries of a freshly constructed FileCollection. -/
def emptyColl : DirNode := .node [] []

def get_direntries (t : DirNode) (parts : List Bytes) : Except Err DirNode :=
  resolveDir [] t parts

/-- add_fileentry: empty parts raise IsADirectoryError; otherwise resolve the
parent with create=True, raise IsADirectoryError if the final name is a
subdirectory, else store the entry (overwriting any previous file entry in
place). -/
def add_fileentry (t : DirNode) (parts : List Bytes) (e : FileEntry) : Except Err Unit × DirNode :=
  match parts with
  | [] => (.error (.IsADirectory []), t)
  | _ :: _ =>
    resolveCreateMod [] t parts.dropLast (fun d =>
      if (alookup (parts.getLastD []) d.subdirs).isSome then .error (.IsADirectory parts)
      else .ok (.node (aset (parts.getLastD []) e d.files) d.subdirs))

/-- get_fileentry: empty parts raise IsADirectoryError; a final name that is a
subdirectory raises IsADirectoryError; an absent final name raises
FileNotFoundError. -/
def get_fileentry (t : DirNode) (parts : List Bytes) : Except Err FileEntry :=
  match parts with
  | [] => .error (.IsADirectory [])
  | _ :: _ =>
    match resolveDir [] t parts.dropLast with
    | .error e => .error e
    | .ok d =>
      if (alookup (parts.getLastD []) d.subdirs).isSome then .error (.IsADirectory parts)
      else
        match alookup (parts.getLastD []) d.files with
        | some fe => .ok fe
        | none => .error (.NotFound parts)

/-- open_r: fetch the entry, invoke its read provider, raise
UnsupportedOperation if that yields nothing. -/
def open_r (t : DirNode) (parts : List Bytes) : Except Err Nat :=
  match get_fileentry t parts with
  | .error e => .error e
  | .ok entry =>
    match entry.open_r with
    | some h => .ok h
    | none => .error (.UnsupportedOperation parts)

/-- open_w: like open_r with the write provider. -/
def open_w (t : DirNode) (parts : List Bytes) : Except Err Nat :=
  match get_fileentry t parts with
  | .error e => .error e
  | .ok entry =>
    match entry.open_w with
    | some h => .ok h
    | none => .error (.UnsupportedOperation parts)

/-- list: yields the subdir names, then the file names, insertion order. -/
def list (t : DirNode) (parts : List Bytes) : Except Err (List Bytes) :=
  match get_direntries t parts with
  | .error e => .error e
  | .ok d => .ok (d.subdirs.map Prod.fst ++ d.files.map Prod.fst)

/-- filesize: entry.size(), UnsupportedOperation when the provider is absent. -/
def filesize (t : DirNode) (parts : List Bytes) : Except Err Nat :=
  match get_fileentry t parts with
  | .error e => .error e
  | .ok entry =>
    match entry.size with
    | some n => .ok n
    | none => .error (.UnsupportedOperation parts)

/-- mtime: entry.mtime(), UnsupportedOperation when the provider is absent. -/
def mtime (t : DirNode) (parts : List Bytes) : Except Err Nat :=
  match get_fileentry t parts with
  | .error e => .error e
  | .ok entry =>
    match entry.mtime with
    | some n => .ok n
    | none => .error (.UnsupportedOperation parts)

def mkdirs (t : DirNode) (parts : List Bytes) : Except Err Unit × DirNode :=
  resolveCreateMod [] t parts (fun d => .ok d)

/-- rmdir: root raises UnsupportedOperation; then resolve the parent, raise
NotADirectoryError if the name is a file, FileNotFoundError if absent,
NotEmpty if the directory has any children, else delete it. -/
def rmdir (t : DirNode) (parts : List Bytes) : Except Err Unit × DirNode :=
  match parts with
  | [] => (.error (.UnsupportedOperation []), t)
  | _ :: _ =>
    match modAt [] t parts.dropLast (fun d =>
      if (alookup (parts.getLastD []) d.files).isSome then .error (.NotADirectory parts)
      else
        match alookup (parts.getLastD []) d.subdirs with
        | none => .error (.NotFound parts)
        | some sub =>
          if sub.files.isEmpty && sub.subdirs.isEmpty then
            .ok (.node d.files (adel (parts.getLastD []) d.subdirs))
          else .error (.NotEmpty parts)) with
    | .ok t2 => (.ok (), t2)
    | .error e => (.error e, t)

/-- unlink: root raises IsADirectoryError; a name that is a subdirectory
raises IsADirectoryError; deletion of an absent name raises
FileNotFoundError. -/
def unlink (t : DirNode) (parts : List Bytes) : Except Err Unit × DirNode :=
  match parts with
  | [] => (.error (.IsADirectory []), t)
  | _ :: _ =>
    match modAt [] t parts.dropLast (fun d =>
      if (alookup (parts.getLastD []) d.subdirs).isSome then .error (.IsADirectory parts)
      else
        if (alookup (parts.getLastD []) d.files).isSome then
          .ok (.node (adel (parts.getLastD []) d.files) d.subdirs)
        else .error (.NotFound parts)) with
    | .ok t2 => (.ok (), t2)
    | .error e => (.error e, t)

def touch (t : DirNode) (parts : List Bytes) : Except Err Unit × DirNode :=
  (.error (.UnsupportedOperation parts), t)

def rename (t : DirNode) (srcparts tgtparts : List Bytes) : Except Err Unit × DirNode :=
  (.error (.UnsupportedOperation (srcparts ++ tgtparts)), t)

/-- is_file: get_fileentry with every IOError turned into False. -/
def is_file (t : DirNode) (parts : List Bytes) : Bool :=
  match get_fileentry t parts with
  | .ok _ => true
  | .error _ => false

/-- is_dir: get_direntries with every IOError turned into False. -/
def is_dir (t : DirNode) (parts : List Bytes) : Bool :=
  match get_direntries t parts with
  | .ok _ => true
  | .error _ => false

/-- writable: unpack the entry and test its write slot, with every IOError
turned into False. -/
def writable (t : DirNode) (parts : List Bytes) : Bool :=
  match get_fileentry t parts with
  | .ok entry => entry.open_w.isSome
  | .error _ => false

def watch (_t : DirNode) (_parts : List Bytes) : Bool := false

def poll_watches (_t : DirNode) : Unit := ()

/-- Disjointness of the two name maps of one node: no file name is also a
subdirectory name. -/
def disjointNames (fs : List (Bytes × FileEntry)) (ds : List (Bytes × DirNode)) : Bool :=
  fs.all fun kv => (alookup kv.1 ds).isNone

mutual
/-- The documented DirectoryNode invariant, at every node of the tree. -/
def treeOk : DirNode → Bool
  | .node fs ds => disjointNames fs ds && subOk ds
/-- treeOk for each subdirectory of a node. -/
def subOk : List (Bytes × DirNode) → Bool
  | [] => true
  | (_, d) :: rest => treeOk d && subOk rest
end

/-- One structural operation of the FileCollection interface. The read-only
operations (get_direntries, get_fileentry, open_r, open_w, list, filesize,
mtime, is_file, is_dir, writable, watch, poll_watches) never touch the tree:
in the code they only read the maps, so a single constructor stands for all
of them. touch and rename raise before reaching the tree. -/
inductive Op where
  | reg (parts : List Bytes) (e : FileEntry)
  | mkd (parts : List Bytes)
  | rmd (parts : List Bytes)
  | unl (parts : List Bytes)
  | tch (parts : List Bytes)
  | ren (srcparts tgtparts : List Bytes)
  | readonly

/-- The tree after one operation, including the tree a failed call leaves
behind. -/
def applyOp (t : DirNode) : Op → DirNode
  | .reg parts e => (add_fileentry t parts e).2
  | .mkd parts => (mkdirs t parts).2
  | .rmd parts => (rmdir t parts).2
  | .unl parts => (unlink t parts).2
  | .tch parts => (touch t parts).2
  | .ren s g => (rename t s g).2
  | .readonly => t

/-- The tree reached from a fresh FileCollection by a sequence of operations. -/
def runOps (ops : List Op) : DirNode :=
  ops.foldl applyOp emptyColl

theorem alookup_aset_self {α : Type} (k : Bytes) (v : α) (l : List (Bytes × α)) :
    alookup k (aset k v l) = some v := by
  induction l with
  | nil => simp [aset, alookup]
  | cons hd tl ih =>
    obtain ⟨k2, v2⟩ := hd
    by_cases h : k2 = k <;> simp [aset, alookup, h, ih]

theorem alookup_aset_ne {α : Type} {k k2 : Bytes} (v : α) (l : List (Bytes × α))
    (h : k ≠ k2) : alookup k2 (aset k v l) = alookup k2 l := by
  induction l with
  | nil => simp [aset, alookup, h]
  | cons hd tl ih =>
    obtain ⟨k3, v3⟩ := hd
    by_cases h3 : k3 = k
    · subst h3
      simp [aset, alookup, h]
    · simp [aset, alookup, h3, ih]

theorem aset_aset {α : Type} (k : Bytes) (v w : α) (l : List (Bytes × α)) :
    aset k v (aset k w l) = aset k v l := by
  induction l with
  | nil => simp [aset]
  | cons hd tl ih =>
    obtain ⟨k2, v2⟩ := hd
    by_cases h : k2 = k <;> simp [aset, h, ih]

theorem aset_eq_of_alookup {α : Type} {k : Bytes} {v : α} {l : List (Bytes × α)}
    (h : alookup k l = some v) : aset k v l = l := by
  induction l with
  | nil => simp [alookup] at h
  | cons hd tl ih =>
    obtain ⟨k2, v2⟩ := hd
    by_cases h2 : k2 = k
    · subst h2
      simp [alookup] at h
      simp [aset, h]
    · simp [alookup, h2] at h
      simp [aset, h2, ih h]

theorem alookup_isSome_of_mem {α : Type} {k : Bytes} {v : α} {l : List (Bytes × α)}
    (h : (k, v) ∈ l) : (alookup k l).isSome := by
  induction l with
  | nil => simp at h
  | cons hd tl ih =>
    obtain ⟨k2, v2⟩ := hd
    by_cases h2 : k2 = k
    · simp [alookup, h2]
    · rcases List.mem_cons.mp h with h3 | h3
      · cases h3; simp at h2
      · simp [alookup, h2, ih h3]

theorem mem_aset {α : Type} {p : Bytes × α} {k : Bytes} {v : α} {l : List (Bytes × α)}
    (h : p ∈ aset k v l) : p ∈ l ∨ p = (k, v) := by
  induction l with
  | nil => simp [aset] at h; simp [h]
  | cons hd tl ih =>
    obtain ⟨k2, v2⟩ := hd
    by_cases h2 : k2 = k
    · simp [aset, h2] at h
      rcases h with h | h
      · simp [h]
      · simp [h]
    · simp [aset, h2] at h
      rcases h with h | h
      · simp [h]
      · rcases ih h with h3 | h3
        · simp [h3]
        · simp [h3]

theorem mem_adel {α : Type} {p : Bytes × α} {k : Bytes} {l : List (Bytes × α)}
    (h : p ∈ adel k l) : p ∈ l := by
  induction l with
  | nil => simp [adel] at h
  | cons hd tl ih =>
    obtain ⟨k2, v2⟩ := hd
    by_cases h2 : k2 = k
    · simp [adel, h2] at h
      simp [h]
    · simp [adel, h2] at h
      rcases h with h | h
      · simp [h]
      · simp [ih h]

theorem alookup_adel_none {α : Type} {k k2 : Bytes} {l : List (Bytes × α)}
    (h : alookup k l = none) : alookup k (adel k2 l) = none := by
  induction l with
  | nil => simp [adel, alookup]
  | cons hd tl ih =>
    obtain ⟨k3, v3⟩ := hd
    by_cases h3 : k3 = k
    · simp [alookup, h3] at h
    · simp [alookup, h3] at h
      by_cases h4 : k3 = k2
      · simpa [adel, h4] using h
      · simp [adel, alookup, h3, h4, ih h]

theorem alookup_not_mem_none {α : Type} {k : Bytes} {l : List (Bytes × α)}
    (h : k ∉ l.map Prod.fst) : alookup k l = none := by
  induction l with
  | nil => simp [alookup]
  | cons hd tl ih =>
    obtain ⟨k2, v2⟩ := hd
    rw [List.map_cons, List.mem_cons] at h
    push_neg at h
    simp [alookup, Ne.symm h.1]
    exact ih h.2

theorem alookup_adel_self {α : Type} {k : Bytes} {l : List (Bytes × α)}
    (h : (l.map Prod.fst).Nodup) : alookup k (adel k l) = none := by
  induction l with
  | nil => simp [adel, alookup]
  | cons hd tl ih =>
    obtain ⟨k2, v2⟩ := hd
    rw [List.map_cons, List.nodup_cons] at h
    by_cases h2 : k2 = k
    · subst h2
      simp [adel]
      exact alookup_not_mem_none h.1
    · simp [adel, alookup, h2]
      exact ih h.2

theorem map_fst_adel {α : Type} (k : Bytes) (l : List (Bytes × α)) :
    (adel k l).map Prod.fst = (l.map Prod.fst).erase k := by
  induction l with
  | nil => simp [adel]
  | cons hd tl ih =>
    obtain ⟨k2, v2⟩ := hd
    by_cases h : k2 = k
    · simp [adel, h, List.erase_cons]
    · simp [adel, h, List.erase_cons, ih]

theorem alookup_none_not_mem {α : Type} {k : Bytes} {l : List (Bytes × α)}
    (h : alookup k l = none) : k ∉ l.map Prod.fst := by
  induction l with
  | nil => simp
  | cons hd tl ih =>
    obtain ⟨k2, v2⟩ := hd
    by_cases h2 : k2 = k
    · simp [alookup, h2] at h
    · simp [alookup, h2] at h
      simp [h2, ih h]
      intro hc
      exact absurd hc.symm h2

theorem resolveDir_ok_pre {q : List Bytes} {pre pre2 : List Bytes} {t : DirNode} {d : DirNode}
    (h : resolveDir pre t q = .ok d) : resolveDir pre2 t q = .ok d := by
  induction q generalizing pre pre2 t with
  | nil => simpa [resolveDir] using h
  | cons s rest ih =>
    simp only [resolveDir] at h ⊢
    cases h2 : alookup s t.subdirs with
    | some child => rw [h2] at h; exact ih h
    | none => rw [h2] at h; exact absurd h (by simp)

theorem resolveDir_err_notfound {q : List Bytes} {pre : List Bytes} {t : DirNode} {e : Err}
    (h : resolveDir pre t q = .error e) : ∃ p2, e = .NotFound p2 := by
  induction q generalizing pre t with
  | nil => simp [resolveDir] at h
  | cons s rest ih =>
    simp only [resolveDir] at h
    cases h2 : alookup s t.subdirs with
    | some child => rw [h2] at h; exact ih h
    | none =>
      rw [h2] at h
      exact ⟨pre ++ [s], by simpa using h.symm⟩

theorem resolveDir_append (a : List Bytes) (pre : List Bytes) (t : DirNode) (b : List Bytes) :
    resolveDir pre t (a ++ b) =
      match resolveDir pre t a with
      | .error e => .error e
      | .ok d => resolveDir (pre ++ a) d b := by
  induction a generalizing pre t with
  | nil => simp [resolveDir]
  | cons s rest ih =>
    simp only [List.cons_append, resolveDir]
    cases h2 : alookup s t.subdirs with
    | some child => simp [ih, List.append_assoc]
    | none => simp

theorem resolveDir_snoc (q : List Bytes) (pre : List Bytes) (t : DirNode) (n : Bytes) :
    resolveDir pre t (q ++ [n]) =
      match resolveDir pre t q with
      | .error e => .error e
      | .ok d =>
        match alookup n d.subdirs with
        | some c => .ok c
        | none => .error (.NotFound (pre ++ q ++ [n])) := by
  rw [resolveDir_append]
  cases h : resolveDir pre t q with
  | error e => simp
  | ok d =>
    simp [resolveDir]

theorem is_dir_eq_isOk (t : DirNode) (q : List Bytes) :
    is_dir t q = (resolveDir [] t q).isOk := by
  simp only [is_dir, get_direntries]
  cases resolveDir [] t q <;> simp [Except.isOk, Except.toBool]

theorem node_eta (t : DirNode) : DirNode.node t.files t.subdirs = t := by
  cases t
  simp [DirNode.files, DirNode.subdirs]

theorem resolveDir_isOk_pre (q pre pre2 : List Bytes) (t : DirNode) :
    (resolveDir pre t q).isOk = (resolveDir pre2 t q).isOk := by
  cases h : resolveDir pre t q with
  | ok d => rw [@resolveDir_ok_pre q pre pre2 t d h]
  | error e =>
    cases h2 : resolveDir pre2 t q with
    | ok d => rw [@resolveDir_ok_pre q pre2 pre t d h2] at h; exact absurd h (by simp)
    | error e2 => simp [Except.isOk, Except.toBool]

theorem createMod_ok {q pre : List Bytes} {t : DirNode} {f : DirNode → Except Err DirNode}
    (h : (resolveCreateMod pre t q f).1 = .ok ()) :
    ∃ d d2, f d = .ok d2 ∧ resolveDir pre (resolveCreateMod pre t q f).2 q = .ok d2 := by
  induction q generalizing pre t with
  | nil =>
    cases hf : f t with
    | ok t2 => exact ⟨t, t2, hf, by simp [resolveCreateMod, hf, resolveDir]⟩
    | error e => simp [resolveCreateMod, hf] at h
  | cons s rest ih =>
    simp only [resolveCreateMod] at h ⊢
    cases h2 : alookup s t.subdirs with
    | some child =>
      simp only [h2] at h ⊢
      obtain ⟨d, d2, hf, hres⟩ := @ih (pre ++ [s]) child h
      refine ⟨d, d2, hf, ?_⟩
      simp only [resolveDir, DirNode.subdirs, alookup_aset_self]
      exact hres
    | none =>
      simp only [h2] at h ⊢
      by_cases h3 : (alookup s t.files).isSome
      · simp [h3] at h
      · simp only [h3, if_neg, Bool.false_eq_true, not_false_eq_true, if_false] at h ⊢
        obtain ⟨d, d2, hf, hres⟩ := @ih (pre ++ [s]) (DirNode.node [] []) h
        refine ⟨d, d2, hf, ?_⟩
        simp only [resolveDir, DirNode.subdirs, alookup_aset_self]
        exact hres

theorem createMod_err_of_resolve {q pre : List Bytes} {t d : DirNode}
    {f : DirNode → Except Err DirNode} {e : Err}
    (h : resolveDir pre t q = .ok d) (hf : f d = .error e) :
    resolveCreateMod pre t q f = (.error e, t) := by
  induction q generalizing pre t with
  | nil =>
    simp only [resolveDir] at h
    cases h
    simp [resolveCreateMod, hf]
  | cons s rest ih =>
    simp only [resolveDir] at h
    cases h2 : alookup s t.subdirs with
    | some child =>
      rw [h2] at h
      have hrec := @ih (pre ++ [s]) child h
      simp only [resolveCreateMod, h2, hrec]
      simp [aset_eq_of_alookup h2, node_eta]
    | none =>
      rw [h2] at h
      exact absurd h (by simp)

theorem createMod_after_mkdirs (q : List Bytes) (pre : List Bytes) (t : DirNode)
    (f : DirNode → Except Err DirNode) :
    resolveCreateMod pre (resolveCreateMod pre t q (fun d => .ok d)).2 q f
      = resolveCreateMod pre t q f := by
  induction q generalizing pre t with
  | nil => simp [resolveCreateMod]
  | cons s rest ih =>
    obtain ⟨fs, ds⟩ := t
    cases h2 : alookup s ds with
    | some child =>
      simp only [resolveCreateMod, DirNode.files_node, DirNode.subdirs_node, h2,
        alookup_aset_self]
      simp [aset_aset, ih]
    | none =>
      by_cases h3 : (alookup s fs).isSome
      · simp [resolveCreateMod, h2, h3]
      · simp only [resolveCreateMod, DirNode.files_node, DirNode.subdirs_node, h2, h3,
          Bool.false_eq_true, not_false_eq_true, if_false, if_neg, alookup_aset_self]
        simp [aset_aset, ih]

theorem modAt_resolve_ok {q pre : List Bytes} {t d : DirNode}
    {f : DirNode → Except Err DirNode} {d2 : DirNode}
    (h : resolveDir pre t q = .ok d) (hf : f d = .ok d2) :
    ∃ t2, modAt pre t q f = .ok t2 ∧ resolveDir pre t2 q = .ok d2 := by
  induction q generalizing pre t with
  | nil =>
    simp only [resolveDir] at h
    cases h
    exact ⟨d2, by simp [modAt, hf], by simp [resolveDir]⟩
  | cons s rest ih =>
    simp only [resolveDir] at h
    cases h2 : alookup s t.subdirs with
    | some child =>
      rw [h2] at h
      obtain ⟨c2, hm, hr⟩ := @ih (pre ++ [s]) child h
      refine ⟨.node t.files (aset s c2 t.subdirs), by simp [modAt, h2, hm], ?_⟩
      simp only [resolveDir, DirNode.subdirs, alookup_aset_self]
      exact hr
    | none =>
      rw [h2] at h
      exact absurd h (by simp)

theorem modAt_resolve_err {q pre : List Bytes} {t d : DirNode}
    {f : DirNode → Except Err DirNode} {e : Err}
    (h : resolveDir pre t q = .ok d) (hf : f d = .error e) :
    modAt pre t q f = .error e := by
  induction q generalizing pre t with
  | nil =>
    simp only [resolveDir] at h
    cases h
    simp [modAt, hf]
  | cons s rest ih =>
    simp only [resolveDir] at h
    cases h2 : alookup s t.subdirs with
    | some child =>
      rw [h2] at h
      simp [modAt, h2, @ih (pre ++ [s]) child h]
    | none =>
      rw [h2] at h
      exact absurd h (by simp)

theorem modAt_walk_err {q pre : List Bytes} {t : DirNode}
    {f : DirNode → Except Err DirNode} {e : Err}
    (h : resolveDir pre t q = .error e) : modAt pre t q f = .error e := by
  induction q generalizing pre t with
  | nil => simp [resolveDir] at h
  | cons s rest ih =>
    simp only [resolveDir] at h
    cases h2 : alookup s t.subdirs with
    | some child =>
      rw [h2] at h
      simp [modAt, h2, @ih (pre ++ [s]) child h]
    | none =>
      rw [h2] at h
      simp only [modAt, h2]
      simpa using h

theorem modAt_ok_inv {q pre : List Bytes} {t t2 : DirNode}
    {f : DirNode → Except Err DirNode}
    (h : modAt pre t q f = .ok t2) :
    ∃ d d2, resolveDir pre t q = .ok d ∧ f d = .ok d2 ∧ resolveDir pre t2 q = .ok d2 := by
  induction q generalizing pre t t2 with
  | nil =>
    simp only [modAt] at h
    exact ⟨t, t2, by simp [resolveDir], h, by simp [resolveDir]⟩
  | cons s rest ih =>
    simp only [modAt] at h
    cases h2 : alookup s t.subdirs with
    | some child =>
      simp only [h2] at h
      cases h3 : modAt (pre ++ [s]) child rest f with
      | ok c2 =>
        simp only [h3] at h
        simp at h
        obtain ⟨d, d2, hr, hf, hr2⟩ := ih h3
        refine ⟨d, d2, by simp [resolveDir, h2, hr], hf, ?_⟩
        rw [← h]
        simp only [resolveDir, DirNode.subdirs, alookup_aset_self]
        exact hr2
      | error e =>
        simp only [h3] at h
        exact absurd h (by simp)
    | none =>
      simp only [h2] at h
      exact absurd h (by simp)

theorem add_fileentry_ne_nil {parts : List Bytes} (t : DirNode) (e : FileEntry)
    (h : parts ≠ []) :
    add_fileentry t parts e = resolveCreateMod [] t parts.dropLast (fun d =>
      if (alookup (parts.getLastD []) d.subdirs).isSome then .error (.IsADirectory parts)
      else .ok (.node (aset (parts.getLastD []) e d.files) d.subdirs)) := by
  cases parts with
  | nil => exact absurd rfl h
  | cons a as => rfl

theorem get_fileentry_ne_nil {parts : List Bytes} (t : DirNode) (h : parts ≠ []) :
    get_fileentry t parts =
      match resolveDir [] t parts.dropLast with
      | .error e => .error e
      | .ok d =>
        if (alookup (parts.getLastD []) d.subdirs).isSome then .error (.IsADirectory parts)
        else
          match alookup (parts.getLastD []) d.files with
          | some fe => .ok fe
          | none => .error (.NotFound parts) := by
  cases parts with
  | nil => exact absurd rfl h
  | cons a as => rfl

theorem rmdir_ne_nil {parts : List Bytes} (t : DirNode) (h : parts ≠ []) :
    rmdir t parts =
      match modAt [] t parts.dropLast (fun d =>
        if (alookup (parts.getLastD []) d.files).isSome then .error (.NotADirectory parts)
        else
          match alookup (parts.getLastD []) d.subdirs with
          | none => .error (.NotFound parts)
          | some sub =>
            if sub.files.isEmpty && sub.subdirs.isEmpty then
              .ok (.node d.files (adel (parts.getLastD []) d.subdirs))
            else .error (.NotEmpty parts)) with
      | .ok t2 => (.ok (), t2)
      | .error e => (.error e, t) := by
  cases parts with
  | nil => exact absurd rfl h
  | cons a as => rfl

theorem unlink_ne_nil {parts : List Bytes} (t : DirNode) (h : parts ≠ []) :
    unlink t parts =
      match modAt [] t parts.dropLast (fun d =>
        if (alookup (parts.getLastD []) d.subdirs).isSome then .error (.IsADirectory parts)
        else
          if (alookup (parts.getLastD []) d.files).isSome then
            .ok (.node (adel (parts.getLastD []) d.files) d.subdirs)
          else .error (.NotFound parts)) with
      | .ok t2 => (.ok (), t2)
      | .error e => (.error e, t) := by
  cases parts with
  | nil => exact absurd rfl h
  | cons a as => rfl

theorem add_fileentry_snoc (t : DirNode) (e : FileEntry) (q : List Bytes) (n : Bytes) :
    add_fileentry t (q ++ [n]) e = resolveCreateMod [] t q (fun d =>
      if (alookup n d.subdirs).isSome then .error (.IsADirectory (q ++ [n]))
      else .ok (.node (aset n e d.files) d.subdirs)) := by
  rw [add_fileentry_ne_nil t e (by simp)]
  simp

theorem get_fileentry_snoc (t : DirNode) (q : List Bytes) (n : Bytes) :
    get_fileentry t (q ++ [n]) =
      match resolveDir [] t q with
      | .error e => .error e
      | .ok d =>
        if (alookup n d.subdirs).isSome then .error (.IsADirectory (q ++ [n]))
        else
          match alookup n d.files with
          | some fe => .ok fe
          | none => .error (.NotFound (q ++ [n])) := by
  rw [get_fileentry_ne_nil t (by simp)]
  simp

theorem rmdir_snoc (t : DirNode) (q : List Bytes) (n : Bytes) :
    rmdir t (q ++ [n]) =
      match modAt [] t q (fun d =>
        if (alookup n d.files).isSome then .error (.NotADirectory (q ++ [n]))
        else
          match alookup n d.subdirs with
          | none => .error (.NotFound (q ++ [n]))
          | some sub =>
            if sub.files.isEmpty && sub.subdirs.isEmpty then
              .ok (.node d.files (adel n d.subdirs))
            else .error (.NotEmpty (q ++ [n]))) with
      | .ok t2 => (.ok (), t2)
      | .error e => (.error e, t) := by
  rw [rmdir_ne_nil t (by simp)]
  simp

theorem unlink_snoc (t : DirNode) (q : List Bytes) (n : Bytes) :
    unlink t (q ++ [n]) =
      match modAt [] t q (fun d =>
        if (alookup n d.subdirs).isSome then .error (.IsADirectory (q ++ [n]))
        else
          if (alookup n d.files).isSome then
            .ok (.node (adel n d.files) d.subdirs)
          else .error (.NotFound (q ++ [n]))) with
      | .ok t2 => (.ok (), t2)
      | .error e => (.error e, t) := by
  rw [unlink_ne_nil t (by simp)]
  simp

/-- C4: when lookup succeeds but the stored entry lacks the read provider,
open-read fails with UnsupportedOperation, and symmetrically open-write
fails with UnsupportedOperation when the write provider is absent. -/
theorem open_missing_provider_unsupported (t : DirNode) (parts : List Bytes) (e : FileEntry)
    (h : get_fileentry t parts = .ok e) :
    (e.open_r = none → open_r t parts = .error (.UnsupportedOperation parts)) ∧
    (e.open_w = none → open_w t parts = .error (.UnsupportedOperation parts)) := by
  constructor <;> intro h2 <;> simp [open_r, open_w, h, h2]

/-- Witness for C4: a registered entry with no providers is found by lookup,
and open-read and open-write both fail with UnsupportedOperation on it. -/
theorem open_missing_provider_unsupported_witness :
    get_fileentry (add_fileentry emptyColl [[97]] ⟨none, none, none, none⟩).2 [[97]]
      = .ok ⟨none, none, none, none⟩ ∧
    open_r (add_fileentry emptyColl [[97]] ⟨none, none, none, none⟩).2 [[97]]
      = .error (.UnsupportedOperation [[97]]) ∧
    open_w (add_fileentry emptyColl [[97]] ⟨none, none, none, none⟩).2 [[97]]
      = .error (.UnsupportedOperation [[97]]) := by
  refine ⟨by decide, ?_, ?_⟩
  · exact (open_missing_provider_unsupported _ [[97]] ⟨none, none, none, none⟩
      (by decide)).1 (by decide)
  · exact (open_missing_provider_unsupported _ [[97]] ⟨none, none, none, none⟩
      (by decide)).2 (by decide)

/-- C5: a successful register of entry e at path p followed immediately by a
lookup of p yields exactly the entry e, unchanged. -/
theorem register_then_lookup (t : DirNode) (parts : List Bytes) (e : FileEntry)
    (h : (add_fileentry t parts e).1 = .ok ()) :
    get_fileentry (add_fileentry t parts e).2 parts = .ok e := by
  rcases List.eq_nil_or_concat parts with hp | ⟨q, n, hp⟩
  · subst hp; simp [add_fileentry] at h
  · rw [List.concat_eq_append] at hp
    subst hp
    rw [add_fileentry_snoc] at h ⊢
    obtain ⟨d, d2, hf, hres⟩ := createMod_ok h
    rw [get_fileentry_snoc, hres]
    by_cases h2 : (alookup n d.subdirs).isSome
    · rw [if_pos h2] at hf; exact absurd hf (by simp)
    · rw [if_neg h2] at hf
      injection hf with hf
      subst hf
      simp [h2, alookup_aset_self]

/-- Witness for C5: registering an entry at a fresh two-segment path succeeds
and lookup returns that entry. -/
theorem register_then_lookup_witness :
    (add_fileentry emptyColl [[97], [98]] ⟨some 5, none, none, none⟩).1 = .ok () ∧
    get_fileentry (add_fileentry emptyColl [[97], [98]] ⟨some 5, none, none, none⟩).2
      [[97], [98]] = .ok ⟨some 5, none, none, none⟩ :=
  ⟨by decide, register_then_lookup emptyColl [[97], [98]] ⟨some 5, none, none, none⟩ (by decide)⟩

/-- Counterexample for C1: registering over a path whose final segment is an
existing subdirectory raises IsADirectoryError, not FileExistsError as the
claim states. -/
theorem register_dir_exists_cex :
    (add_fileentry (mkdirs emptyColl [[97]]).2 [[97]] ⟨none, none, none, none⟩).1
        = .error (.IsADirectory [[97]]) ∧
    (add_fileentry (mkdirs emptyColl [[97]]).2 [[97]] ⟨none, none, none, none⟩).1
        ≠ .error (.Exists [[97]]) := by
  exact ⟨by decide, by decide⟩

/-- C1 (amended): register on the empty path fails with IsADirectory, and
register on a non-empty path whose final segment names an existing
subdirectory of the parent directory fails with IsADirectory (not Exists);
in both cases the whole tree is left unchanged, so in particular no file
entry is stored. -/
theorem register_conflict_isadirectory :
    (∀ (t : DirNode) (e : FileEntry), add_fileentry t [] e = (.error (.IsADirectory []), t)) ∧
    (∀ (t d sub : DirNode) (q : List Bytes) (n : Bytes) (e : FileEntry),
      resolveDir [] t q = .ok d → alookup n d.subdirs = some sub →
      add_fileentry t (q ++ [n]) e = (.error (.IsADirectory (q ++ [n])), t)) := by
  constructor
  · intro t e
    rfl
  · intro t d sub q n e h1 h2
    rw [add_fileentry_snoc]
    exact createMod_err_of_resolve h1 (by simp [h2])

/-- Witness for C1: on a collection holding a single directory, registering
over that directory path fails with IsADirectory and leaves the tree
unchanged. -/
theorem register_conflict_isadirectory_witness :
    add_fileentry (mkdirs emptyColl [[97]]).2 ([] ++ [[97]]) ⟨none, none, none, none⟩
      = (.error (.IsADirectory ([] ++ [[97]])), (mkdirs emptyColl [[97]]).2) :=
  register_conflict_isadirectory.2 (mkdirs emptyColl [[97]]).2 (mkdirs emptyColl [[97]]).2
    (.node [] []) [] [97] ⟨none, none, none, none⟩ rfl rfl

/-- Counterexample for C6: after mkdirs creates a directory, its path holds
no registered file entry, yet lookup fails with IsADirectory rather than
NotFound. -/
theorem unregistered_notfound_cex :
    is_file (mkdirs emptyColl [[97]]).2 [[97]] = false ∧
    get_fileentry (mkdirs emptyColl [[97]]).2 [[97]] = .error (.IsADirectory [[97]]) ∧
    get_fileentry (mkdirs emptyColl [[97]]).2 [[97]] ≠ .error (.NotFound [[97]]) := by
  exact ⟨by decide, by decide, by decide⟩

/-- C6 (amended): for every path that neither holds a registered file entry
nor names a directory, lookup fails with NotFound, and open-read and
open-write propagate that same NotFound. -/
theorem unregistered_lookup_notfound (t : DirNode) (parts : List Bytes)
    (h1 : is_file t parts = false) (h2 : is_dir t parts = false) :
    ∃ q, get_fileentry t parts = .error (.NotFound q) ∧
      open_r t parts = .error (.NotFound q) ∧ open_w t parts = .error (.NotFound q) := by
  rcases List.eq_nil_or_concat parts with hp | ⟨q0, n, hp⟩
  · subst hp
    simp [is_dir, get_direntries, resolveDir] at h2
  · rw [List.concat_eq_append] at hp
    subst hp
    cases hres : resolveDir [] t q0 with
    | error e =>
      obtain ⟨p2, hp2⟩ := resolveDir_err_notfound hres
      subst hp2
      refine ⟨p2, ?_, ?_, ?_⟩
      · rw [get_fileentry_snoc, hres]
      · simp only [open_r]
        rw [get_fileentry_snoc, hres]
      · simp only [open_w]
        rw [get_fileentry_snoc, hres]
    | ok d =>
      by_cases hsub : (alookup n d.subdirs).isSome
      · exfalso
        simp only [is_dir_eq_isOk, resolveDir_snoc, hres] at h2
        obtain ⟨c, hc⟩ := Option.isSome_iff_exists.mp hsub
        rw [hc] at h2
        simp [Except.isOk, Except.toBool] at h2
      · cases hfil : alookup n d.files with
        | some fe =>
          exfalso
          have hok : get_fileentry t (q0 ++ [n]) = .ok fe := by
            rw [get_fileentry_snoc, hres]
            simp [hsub, hfil]
          rw [is_file, hok] at h1
          simp at h1
        | none =>
          have hget : get_fileentry t (q0 ++ [n]) = .error (.NotFound (q0 ++ [n])) := by
            rw [get_fileentry_snoc, hres]
            simp [hsub, hfil]
          refine ⟨q0 ++ [n], hget, ?_, ?_⟩
          · simp only [open_r]
            rw [hget]
          · simp only [open_w]
            rw [hget]

/-- Witness for C6 (amended): in the empty collection a one-segment path has
no file entry and is not a directory, and lookup on it reports NotFound. -/
theorem unregistered_lookup_notfound_witness :
    is_file emptyColl [[97]] = false ∧ is_dir emptyColl [[97]] = false ∧
    ∃ q, get_fileentry emptyColl [[97]] = .error (.NotFound q) ∧
      open_r emptyColl [[97]] = .error (.NotFound q) ∧
      open_w emptyColl [[97]] = .error (.NotFound q) :=
  ⟨by decide, by decide, unregistered_lookup_notfound emptyColl [[97]] (by decide) (by decide)⟩

/-- C10: when a proper prefix of a path reaches a node whose next segment is
a file (and not a directory) there, non-create directory resolution fails
with NotFound naming that prefix, so get_direntries and list on any such
path, and lookup, filesize and mtime on any path whose parent walk crosses
the file, all report that NotFound. -/
theorem file_shadowed_resolution_notfound (t : DirNode) (q : List Bytes) (s : Bytes)
    (rest : List Bytes) (n : Bytes) (d : DirNode)
    (h1 : resolveDir [] t q = .ok d) (_h2 : (alookup s d.files).isSome)
    (h3 : alookup s d.subdirs = none) :
    get_direntries t (q ++ s :: rest) = .error (.NotFound (q ++ [s])) ∧
    list t (q ++ s :: rest) = .error (.NotFound (q ++ [s])) ∧
    get_fileentry t ((q ++ s :: rest) ++ [n]) = .error (.NotFound (q ++ [s])) ∧
    filesize t ((q ++ s :: rest) ++ [n]) = .error (.NotFound (q ++ [s])) ∧
    mtime t ((q ++ s :: rest) ++ [n]) = .error (.NotFound (q ++ [s])) := by
  have hwalk : resolveDir [] t (q ++ s :: rest) = .error (.NotFound (q ++ [s])) := by
    rw [resolveDir_append, h1]
    simp [resolveDir, h3]
  have hget : get_fileentry t ((q ++ s :: rest) ++ [n]) = .error (.NotFound (q ++ [s])) := by
    rw [get_fileentry_snoc, hwalk]
  refine ⟨hwalk, by simp [list, get_direntries, hwalk], hget, ?_, ?_⟩
  · simp only [filesize]
    rw [hget]
  · simp only [mtime]
    rw [hget]

/-- Witness for C10: a registered file shadows every longer path through it,
and resolution, list and lookup all report NotFound naming the file. -/
theorem file_shadowed_resolution_notfound_witness :
    get_direntries (add_fileentry emptyColl [[97]] ⟨none, none, none, none⟩).2
      ([] ++ [97] :: []) = .error (.NotFound ([] ++ [[97]])) ∧
    get_fileentry (add_fileentry emptyColl [[97]] ⟨none, none, none, none⟩).2
      (([] ++ [97] :: []) ++ [[98]]) = .error (.NotFound ([] ++ [[97]])) :=
  have h := file_shadowed_resolution_notfound
    (add_fileentry emptyColl [[97]] ⟨none, none, none, none⟩).2
    [] [97] [] [98] (.node [([97], ⟨none, none, none, none⟩)] [])
    rfl (by decide) rfl
  ⟨h.1, h.2.2.1⟩

@[simp] theorem is_dir_nil (t : DirNode) : is_dir t [] = true := rfl

theorem is_dir_cons_some {t : DirNode} {a : Bytes} {c : DirNode}
    (h : alookup a t.subdirs = some c) (as : List Bytes) :
    is_dir t (a :: as) = is_dir c as := by
  rw [is_dir_eq_isOk]
  simp only [resolveDir, h]
  rw [is_dir_eq_isOk]
  exact resolveDir_isOk_pre as ([] ++ [a]) [] c

theorem is_dir_cons_none {t : DirNode} {a : Bytes}
    (h : alookup a t.subdirs = none) (as : List Bytes) :
    is_dir t (a :: as) = false := by
  rw [is_dir_eq_isOk]
  simp [resolveDir, h, Except.isOk, Except.toBool]

theorem createMod_is_dir {q : List Bytes} {pre : List Bytes} {t : DirNode}
    {f : DirNode → Except Err DirNode}
    (hsub : ∀ d d2, f d = .ok d2 → d2.subdirs = d.subdirs)
    (h : (resolveCreateMod pre t q f).1 = .ok ()) (p : List Bytes) :
    is_dir (resolveCreateMod pre t q f).2 p = (is_dir t p || p.isPrefixOf q) := by
  induction q generalizing pre t p with
  | nil =>
    cases hf : f t with
    | error e => simp [resolveCreateMod, hf] at h
    | ok t2 =>
      have hs := hsub t t2 hf
      simp only [resolveCreateMod, hf]
      cases p with
      | nil => simp
      | cons a as =>
        cases hav : alookup a t.subdirs with
        | some c =>
          rw [is_dir_cons_some (hs ▸ hav) as, is_dir_cons_some hav as]
          simp [List.isPrefixOf]
        | none =>
          rw [is_dir_cons_none (hs ▸ hav) as, is_dir_cons_none hav as]
          simp [List.isPrefixOf]
  | cons s rest ih =>
    obtain ⟨fs, ds⟩ := t
    cases h2 : alookup s ds with
    | some child =>
      simp only [resolveCreateMod, DirNode.subdirs_node, DirNode.files_node, h2] at h ⊢
      cases p with
      | nil => simp
      | cons a as =>
        by_cases ha : a = s
        · subst ha
          rw [is_dir_cons_some (c := (resolveCreateMod (pre ++ [a]) child rest f).2)
              (by simp [alookup_aset_self]) as,
            is_dir_cons_some (c := child) (by simp [h2]) as,
            @ih (pre ++ [a]) child h as]
          simp [List.isPrefixOf]
        · have hne : alookup a (aset s (resolveCreateMod (pre ++ [s]) child rest f).2 ds)
              = alookup a ds := alookup_aset_ne _ _ (fun hc => ha hc.symm)
          have hbeq : (a == s) = false := beq_eq_false_iff_ne.mpr ha
          cases hav : alookup a ds with
          | some c =>
            rw [is_dir_cons_some
                (t := .node fs (aset s (resolveCreateMod (pre ++ [s]) child rest f).2 ds))
                (c := c) (by simp [hne, hav]) as,
              is_dir_cons_some (t := .node fs ds) (c := c) (by simp [hav]) as]
            simp [List.isPrefixOf, hbeq]
          | none =>
            rw [is_dir_cons_none
                (t := .node fs (aset s (resolveCreateMod (pre ++ [s]) child rest f).2 ds))
                (by simp [hne, hav]) as,
              is_dir_cons_none (t := .node fs ds) (by simp [hav]) as]
            simp [List.isPrefixOf, hbeq]
    | none =>
      by_cases h3 : (alookup s fs).isSome
      · simp [resolveCreateMod, h2, h3] at h
      · simp only [resolveCreateMod, DirNode.subdirs_node, DirNode.files_node, h2, h3,
          Bool.false_eq_true, not_false_eq_true, if_neg, if_false] at h ⊢
        cases p with
        | nil => simp
        | cons a as =>
          by_cases ha : a = s
          · subst ha
            rw [is_dir_cons_some (c := (resolveCreateMod (pre ++ [a]) (.node [] []) rest f).2)
                (by simp [alookup_aset_self]) as,
              is_dir_cons_none (by simp [h2]) as]
            have hih := @ih (pre ++ [a]) (DirNode.node [] []) h as
            cases as with
            | nil => simp [List.isPrefixOf]
            | cons b bs =>
              rw [hih, is_dir_cons_none (t := DirNode.node [] []) (by simp [alookup]) bs]
              simp [List.isPrefixOf]
          · have hne : alookup a
                (aset s (resolveCreateMod (pre ++ [s]) (DirNode.node [] []) rest f).2 ds)
                = alookup a ds := alookup_aset_ne _ _ (fun hc => ha hc.symm)
            have hbeq : (a == s) = false := beq_eq_false_iff_ne.mpr ha
            cases hav : alookup a ds with
            | some c =>
              rw [is_dir_cons_some
                  (t := .node fs
                    (aset s (resolveCreateMod (pre ++ [s]) (DirNode.node [] []) rest f).2 ds))
                  (c := c) (by simp [hne, hav]) as,
                is_dir_cons_some (t := .node fs ds) (c := c) (by simp [hav]) as]
              simp [List.isPrefixOf, hbeq]
            | none =>
              rw [is_dir_cons_none
                  (t := .node fs
                    (aset s (resolveCreateMod (pre ++ [s]) (DirNode.node [] []) rest f).2 ds))
                  (by simp [hne, hav]) as,
                is_dir_cons_none (t := .node fs ds) (by simp [hav]) as]
              simp [List.isPrefixOf, hbeq]

/-- Counterexample for C2: on the empty collection with the one-segment path
p, mkdirs(p) followed by register(p, e) fails IsADirectory and yields a tree
with a directory and no file at p, while register(p, e) alone stores the
file; the two resulting trees differ. -/
theorem mkdirs_then_register_cex :
    (add_fileentry (mkdirs emptyColl [[97]]).2 [[97]] ⟨some 1, none, none, none⟩).1
      = .error (.IsADirectory [[97]]) ∧
    is_file (add_fileentry (mkdirs emptyColl [[97]]).2 [[97]] ⟨some 1, none, none, none⟩).2
      [[97]] = false ∧
    is_file (add_fileentry emptyColl [[97]] ⟨some 1, none, none, none⟩).2 [[97]] = true ∧
    (add_fileentry (mkdirs emptyColl [[97]]).2 [[97]] ⟨some 1, none, none, none⟩).2
      ≠ (add_fileentry emptyColl [[97]] ⟨some 1, none, none, none⟩).2 :=
  ⟨by decide, by decide, by decide,
    fun h => absurd (congrArg (fun t0 => is_file t0 [[97]]) h) (by decide)⟩

/-- C2 (amended): running mkdirs on the parent path p[:-1] and then
register(p, e) produces exactly the same outcome and tree as register(p, e)
alone, and a successful register auto-creates exactly the missing proper
prefix directories of p: afterwards a path is a directory iff it was one
before or is a prefix of p[:-1]. -/
theorem register_after_mkdirs_parent (t : DirNode) (parts : List Bytes) (e : FileEntry) :
    add_fileentry (mkdirs t parts.dropLast).2 parts e = add_fileentry t parts e ∧
    ((add_fileentry t parts e).1 = .ok () →
      ∀ p, is_dir (add_fileentry t parts e).2 p
        = (is_dir t p || p.isPrefixOf parts.dropLast)) := by
  constructor
  · cases parts with
    | nil => rfl
    | cons a as =>
      rw [add_fileentry_ne_nil t e (by simp),
        add_fileentry_ne_nil (mkdirs t ((a :: as).dropLast)).2 e (by simp), mkdirs]
      exact createMod_after_mkdirs ((a :: as).dropLast) [] t _
  · intro h p
    cases parts with
    | nil => simp [add_fileentry] at h
    | cons a as =>
      rw [add_fileentry_ne_nil t e (by simp)] at h ⊢
      refine createMod_is_dir ?_ h p
      intro d d2 hf
      split at hf
      · exact absurd hf (by simp)
      · injection hf with hf
        rw [← hf]
        simp

/-- Witness for C2 (amended): registering at a fresh two-segment path
succeeds, and afterwards the first segment is a directory, matching the
prefix characterization. -/
theorem register_after_mkdirs_parent_witness :
    (add_fileentry emptyColl [[97], [98]] ⟨none, none, none, none⟩).1 = .ok () ∧
    is_dir (add_fileentry emptyColl [[97], [98]] ⟨none, none, none, none⟩).2 [[97]]
      = (is_dir emptyColl [[97]] || [[97]].isPrefixOf ([[97], [98]].dropLast)) :=
  ⟨by decide,
    (register_after_mkdirs_parent emptyColl [[97], [98]] ⟨none, none, none, none⟩).2
      (by decide) [[97]]⟩

/-- C3: is_file, is_dir and writable are Boolean and total; each holds
exactly when the underlying resolution succeeds (for writable, with a write
provider present), every resolution error is converted to false, and a path
naming a directory makes writable false through that same conversion. -/
theorem structural_error_to_false (t : DirNode) (parts : List Bytes) :
    (is_file t parts = true ↔ ∃ e, get_fileentry t parts = .ok e) ∧
    (is_dir t parts = true ↔ ∃ d, get_direntries t parts = .ok d) ∧
    (writable t parts = true ↔
      ∃ e, get_fileentry t parts = .ok e ∧ e.open_w.isSome = true) ∧
    (∀ e, get_fileentry t parts = .error e →
      is_file t parts = false ∧ writable t parts = false) ∧
    (∀ e2, get_direntries t parts = .error e2 → is_dir t parts = false) ∧
    (is_dir t parts = true → writable t parts = false) := by
  refine ⟨?_, ?_, ?_, ?_, ?_, ?_⟩
  · rw [is_file]
    cases h : get_fileentry t parts <;> simp
  · rw [is_dir]
    cases h : get_direntries t parts <;> simp
  · rw [writable]
    cases h : get_fileentry t parts <;> simp
  · intro e h
    rw [is_file, writable, h]
    exact ⟨rfl, rfl⟩
  · intro e2 h
    rw [is_dir, h]
  · intro hd
    rcases List.eq_nil_or_concat parts with hp | ⟨q, n, hp⟩
    · subst hp
      rw [writable]
      rfl
    · rw [List.concat_eq_append] at hp
      subst hp
      rw [is_dir_eq_isOk, resolveDir_snoc] at hd
      cases hres : resolveDir [] t q with
      | error e =>
        simp only [hres] at hd
        simp [Except.isOk, Except.toBool] at hd
      | ok d =>
        simp only [hres] at hd
        cases hc : alookup n d.subdirs with
        | none =>
          simp only [hc] at hd
          simp [Except.isOk, Except.toBool] at hd
        | some c =>
          rw [writable, get_fileentry_snoc, hres]
          simp [hc]

/-- Witness for C3: on a collection with one directory, the directory path
satisfies is_dir and the same path is reported non-writable. -/
theorem structural_error_to_false_witness :
    is_dir (mkdirs emptyColl [[97]]).2 [[97]] = true ∧
    writable (mkdirs emptyColl [[97]]).2 [[97]] = false :=
  ⟨by decide,
    (structural_error_to_false (mkdirs emptyColl [[97]]).2 [[97]]).2.2.2.2.2 (by decide)⟩

/-- C8: unlinking a registered file removes exactly that entry: the
operation succeeds, and listing the parent afterwards yields the subdir
names followed by the file names with the unlinked name erased, each group
in its original insertion order; under the dictionary discipline (no
duplicate keys) the unlinked name is gone from the listing. -/
theorem unlink_list_spec (t d : DirNode) (q : List Bytes) (n : Bytes) (e : FileEntry)
    (h1 : resolveDir [] t q = .ok d) (h2 : alookup n d.subdirs = none)
    (h3 : alookup n d.files = some e) :
    (unlink t (q ++ [n])).1 = .ok () ∧
    list (unlink t (q ++ [n])).2 q
      = .ok (d.subdirs.map Prod.fst ++ (d.files.map Prod.fst).erase n) ∧
    ((d.files.map Prod.fst).Nodup →
      n ∉ d.subdirs.map Prod.fst ++ (d.files.map Prod.fst).erase n) := by
  obtain ⟨t2, hm, hr⟩ := @modAt_resolve_ok q [] t d (fun d0 : DirNode =>
      if (alookup n d0.subdirs).isSome then Except.error (Err.IsADirectory (q ++ [n]))
      else if (alookup n d0.files).isSome then
        Except.ok (DirNode.node (adel n d0.files) d0.subdirs)
      else Except.error (Err.NotFound (q ++ [n])))
    (.node (adel n d.files) d.subdirs) h1 (by simp [h2, h3])
  rw [unlink_snoc, hm]
  refine ⟨rfl, ?_, ?_⟩
  · simp only [list, get_direntries]
    rw [hr]
    simp [map_fst_adel]
  · intro hnd
    simp only [List.mem_append]
    rintro (hmem | hmem)
    · exact alookup_none_not_mem h2 hmem
    · rw [List.Nodup.mem_erase_iff hnd] at hmem
      exact hmem.1 rfl

theorem mem_of_alookup {α : Type} {k : Bytes} {v : α} {l : List (Bytes × α)}
    (h : alookup k l = some v) : (k, v) ∈ l := by
  induction l with
  | nil => simp [alookup] at h
  | cons hd tl ih =>
    obtain ⟨k2, v2⟩ := hd
    by_cases h2 : k2 = k
    · subst h2
      simp [alookup] at h
      simp [h]
    · simp [alookup, h2] at h
      simp [ih h]

theorem disjointNames_iff {fs : List (Bytes × FileEntry)} {ds : List (Bytes × DirNode)} :
    disjointNames fs ds = true ↔ ∀ kv ∈ fs, (alookup kv.1 ds).isNone := by
  simp [disjointNames, List.all_eq_true]

@[simp] theorem treeOk_node (fs : List (Bytes × FileEntry)) (ds : List (Bytes × DirNode)) :
    treeOk (.node fs ds) = (disjointNames fs ds && subOk ds) := by
  rw [treeOk]

@[simp] theorem subOk_nil : subOk [] = true := by
  rw [subOk]

@[simp] theorem subOk_cons (k : Bytes) (d : DirNode) (rest : List (Bytes × DirNode)) :
    subOk ((k, d) :: rest) = (treeOk d && subOk rest) := by
  rw [subOk]

theorem treeOk_of_subOk {ds : List (Bytes × DirNode)} (h : subOk ds = true)
    {k : Bytes} {d : DirNode} (hm : alookup k ds = some d) : treeOk d = true := by
  induction ds with
  | nil => simp [alookup] at hm
  | cons hd tl ih =>
    obtain ⟨k2, d2⟩ := hd
    simp only [subOk_cons, Bool.and_eq_true] at h
    by_cases h2 : k2 = k
    · subst h2
      simp [alookup] at hm
      subst hm
      exact h.1
    · simp [alookup, h2] at hm
      exact ih h.2 hm

theorem subOk_aset {ds : List (Bytes × DirNode)} (h : subOk ds = true)
    {k : Bytes} {c : DirNode} (hc : treeOk c = true) : subOk (aset k c ds) = true := by
  induction ds with
  | nil => simp [aset, hc]
  | cons hd tl ih =>
    obtain ⟨k2, d2⟩ := hd
    simp only [subOk_cons, Bool.and_eq_true] at h
    by_cases h2 : k2 = k
    · subst h2
      simp [aset, hc, h.2]
    · simp [aset, h2, h.1, ih h.2]

theorem subOk_adel {ds : List (Bytes × DirNode)} (h : subOk ds = true) (k : Bytes) :
    subOk (adel k ds) = true := by
  induction ds with
  | nil => simp [adel]
  | cons hd tl ih =>
    obtain ⟨k2, d2⟩ := hd
    simp only [subOk_cons, Bool.and_eq_true] at h
    by_cases h2 : k2 = k
    · simp [adel, h2, h.2]
    · simp [adel, h2, h.1, ih h.2]

theorem disjointNames_aset_subdirs {fs : List (Bytes × FileEntry)}
    {ds : List (Bytes × DirNode)} (h : disjointNames fs ds = true)
    {k : Bytes} (hk : alookup k fs = none) (c : DirNode) :
    disjointNames fs (aset k c ds) = true := by
  rw [disjointNames_iff] at h ⊢
  intro kv hkv
  by_cases h2 : kv.1 = k
  · exfalso
    obtain ⟨k1, v1⟩ := kv
    simp at h2
    subst h2
    exact absurd (alookup_isSome_of_mem hkv) (by simp [hk])
  · rw [alookup_aset_ne _ _ (fun hc => h2 hc.symm)]
    exact h kv hkv

theorem alookup_files_none_of_disjoint {fs : List (Bytes × FileEntry)}
    {ds : List (Bytes × DirNode)} (h : disjointNames fs ds = true)
    {k : Bytes} (hs : (alookup k ds).isSome) : alookup k fs = none := by
  cases hf : alookup k fs with
  | none => rfl
  | some v =>
    exfalso
    have := (disjointNames_iff.mp h) (k, v) (mem_of_alookup hf)
    simp at this
    rw [this] at hs
    simp at hs

theorem disjointNames_adel_subdirs {fs : List (Bytes × FileEntry)}
    {ds : List (Bytes × DirNode)} (h : disjointNames fs ds = true) (n : Bytes) :
    disjointNames fs (adel n ds) = true := by
  rw [disjointNames_iff] at h ⊢
  intro kv hkv
  have := h kv hkv
  simp only [Option.isNone_iff_eq_none] at this ⊢
  exact alookup_adel_none this

theorem disjointNames_aset_files {fs : List (Bytes × FileEntry)}
    {ds : List (Bytes × DirNode)} (h : disjointNames fs ds = true)
    {n : Bytes} (hn : alookup n ds = none) (e : FileEntry) :
    disjointNames (aset n e fs) ds = true := by
  rw [disjointNames_iff] at h ⊢
  intro kv hkv
  rcases mem_aset hkv with hm | hm
  · exact h kv hm
  · subst hm
    simp [hn]

theorem disjointNames_adel_files {fs : List (Bytes × FileEntry)}
    {ds : List (Bytes × DirNode)} (h : disjointNames fs ds = true) (n : Bytes) :
    disjointNames (adel n fs) ds = true := by
  rw [disjointNames_iff] at h ⊢
  intro kv hkv
  exact h kv (mem_adel hkv)

theorem treeOk_createMod {q pre : List Bytes} {t : DirNode}
    {f : DirNode → Except Err DirNode} (ht : treeOk t = true)
    (hf : ∀ d, treeOk d = true → ∀ d2, f d = .ok d2 → treeOk d2 = true) :
    treeOk (resolveCreateMod pre t q f).2 = true := by
  induction q generalizing pre t with
  | nil =>
    cases hfe : f t with
    | ok t2 => simpa [resolveCreateMod, hfe] using hf t ht t2 hfe
    | error e => simpa [resolveCreateMod, hfe] using ht
  | cons s rest ih =>
    obtain ⟨fs, ds⟩ := t
    simp only [treeOk_node, Bool.and_eq_true] at ht
    cases h2 : alookup s ds with
    | some child =>
      have hchild : treeOk child = true := treeOk_of_subOk ht.2 h2
      have hrec := @ih (pre ++ [s]) child hchild
      simp only [resolveCreateMod, DirNode.subdirs_node, DirNode.files_node, h2,
        treeOk_node, Bool.and_eq_true]
      exact ⟨disjointNames_aset_subdirs ht.1
          (alookup_files_none_of_disjoint ht.1 (by simp [h2])) _,
        subOk_aset ht.2 hrec⟩
    | none =>
      by_cases h3 : (alookup s fs).isSome
      · simp only [resolveCreateMod, DirNode.subdirs_node, DirNode.files_node, h2, h3,
          if_pos, treeOk_node, Bool.and_eq_true]
        exact ⟨ht.1, ht.2⟩
      · have hrec := @ih (pre ++ [s]) (DirNode.node [] []) (by decide)
        simp only [resolveCreateMod, DirNode.subdirs_node, DirNode.files_node, h2, h3,
          Bool.false_eq_true, not_false_eq_true, if_neg, if_false, treeOk_node,
          Bool.and_eq_true]
        exact ⟨disjointNames_aset_subdirs ht.1 (Option.not_isSome_iff_eq_none.mp h3) _,
          subOk_aset ht.2 hrec⟩

theorem treeOk_modAt {q pre : List Bytes} {t t2 : DirNode}
    {f : DirNode → Except Err DirNode} (ht : treeOk t = true)
    (hf : ∀ d, treeOk d = true → ∀ d2, f d = .ok d2 → treeOk d2 = true)
    (h : modAt pre t q f = .ok t2) : treeOk t2 = true := by
  induction q generalizing pre t t2 with
  | nil =>
    simp only [modAt] at h
    exact hf t ht t2 h
  | cons s rest ih =>
    obtain ⟨fs, ds⟩ := t
    simp only [treeOk_node, Bool.and_eq_true] at ht
    simp only [modAt, DirNode.subdirs_node, DirNode.files_node] at h
    cases h2 : alookup s ds with
    | some child =>
      simp only [h2] at h
      cases h3 : modAt (pre ++ [s]) child rest f with
      | ok c2 =>
        simp only [h3] at h
        simp only [Except.ok.injEq] at h
        subst h
        have hc2 : treeOk c2 = true := ih (treeOk_of_subOk ht.2 h2) h3
        simp only [treeOk_node, Bool.and_eq_true]
        exact ⟨disjointNames_aset_subdirs ht.1
            (alookup_files_none_of_disjoint ht.1 (by simp [h2])) _,
          subOk_aset ht.2 hc2⟩
      | error e =>
        simp only [h3] at h
        exact absurd h (by simp)
    | none =>
      simp only [h2] at h
      exact absurd h (by simp)

theorem treeOk_applyOp {t : DirNode} (ht : treeOk t = true) (op : Op) :
    treeOk (applyOp t op) = true := by
  cases op with
  | reg parts e =>
    cases parts with
    | nil => exact ht
    | cons a as =>
      simp only [applyOp]
      rw [add_fileentry_ne_nil t e (by simp)]
      refine treeOk_createMod ht ?_
      intro d hd d2 hfd
      split at hfd
      · exact absurd hfd (by simp)
      · rename_i hc
        injection hfd with hfd
        subst hfd
        obtain ⟨fs, ds⟩ := d
        simp only [treeOk_node, Bool.and_eq_true] at hd ⊢
        simp only [DirNode.subdirs_node, DirNode.files_node] at hc ⊢
        exact ⟨disjointNames_aset_files hd.1 (Option.not_isSome_iff_eq_none.mp hc) e, hd.2⟩
  | mkd parts =>
    simp only [applyOp, mkdirs]
    refine treeOk_createMod ht ?_
    intro d hd d2 hfd
    simp only [Except.ok.injEq] at hfd
    subst hfd
    exact hd
  | rmd parts =>
    cases parts with
    | nil => exact ht
    | cons a as =>
      simp only [applyOp]
      rw [rmdir_ne_nil t (by simp)]
      cases hm : modAt [] t ((a :: as).dropLast) (fun d0 : DirNode =>
          if (alookup ((a :: as).getLastD []) d0.files).isSome then
            Except.error (Err.NotADirectory (a :: as))
          else
            match alookup ((a :: as).getLastD []) d0.subdirs with
            | none => Except.error (Err.NotFound (a :: as))
            | some sub =>
              if sub.files.isEmpty && sub.subdirs.isEmpty then
                Except.ok (DirNode.node d0.files (adel ((a :: as).getLastD []) d0.subdirs))
              else Except.error (Err.NotEmpty (a :: as))) with
      | ok t2 =>
        show treeOk t2 = true
        refine treeOk_modAt ht ?_ hm
        intro d hd d2 hfd
        split at hfd
        · exact absurd hfd (by simp)
        · split at hfd
          · exact absurd hfd (by simp)
          · split at hfd
            · injection hfd with hfd
              subst hfd
              obtain ⟨fs, ds⟩ := d
              simp only [treeOk_node, Bool.and_eq_true] at hd ⊢
              exact ⟨disjointNames_adel_subdirs hd.1 _, subOk_adel hd.2 _⟩
            · exact absurd hfd (by simp)
      | error e =>
        exact ht
  | unl parts =>
    cases parts with
    | nil => exact ht
    | cons a as =>
      simp only [applyOp]
      rw [unlink_ne_nil t (by simp)]
      cases hm : modAt [] t ((a :: as).dropLast) (fun d0 : DirNode =>
          if (alookup ((a :: as).getLastD []) d0.subdirs).isSome then
            Except.error (Err.IsADirectory (a :: as))
          else
            if (alookup ((a :: as).getLastD []) d0.files).isSome then
              Except.ok (DirNode.node (adel ((a :: as).getLastD []) d0.files) d0.subdirs)
            else Except.error (Err.NotFound (a :: as))) with
      | ok t2 =>
        show treeOk t2 = true
        refine treeOk_modAt ht ?_ hm
        intro d hd d2 hfd
        split at hfd
        · exact absurd hfd (by simp)
        · split at hfd
          · injection hfd with hfd
            subst hfd
            obtain ⟨fs, ds⟩ := d
            simp only [treeOk_node, Bool.and_eq_true] at hd ⊢
            exact ⟨disjointNames_adel_files hd.1 _, hd.2⟩
          · exact absurd hfd (by simp)
      | error e =>
        exact ht
  | tch parts => exact ht
  | ren s g => exact ht
  | readonly => exact ht

/-- C9: in every tree reachable from the fresh collection by any sequence of
register, mkdirs, rmdir, unlink and read-only operations, no node of the
tree holds the same name in its file mapping and its subdirectory mapping
simultaneously. -/
theorem reachable_treeOk (ops : List Op) : treeOk (runOps ops) = true := by
  suffices h : ∀ (l : List Op) (t : DirNode), treeOk t = true →
      treeOk (l.foldl applyOp t) = true by
    exact h ops emptyColl (by decide)
  intro l
  induction l with
  | nil => intro t ht; exact ht
  | cons op rest ih =>
    intro t ht
    exact ih (applyOp t op) (treeOk_applyOp ht op)

/-- C7: rmdir removes the named directory exactly when the path is non-empty
and names an existing empty directory; otherwise it fails with
UnsupportedOperation on the root, with the walk error (NotFound) when the
parent chain does not resolve, with NotADirectory when the final name is a
file in the parent, with NotFound when the final name is absent, and with
NotEmpty when the named directory has any child, leaving the tree unchanged
on every failure. -/
theorem rmdir_spec :
    (∀ t : DirNode, rmdir t [] = (.error (.UnsupportedOperation []), t)) ∧
    (∀ (t : DirNode) (q : List Bytes) (n : Bytes) (e : Err),
      resolveDir [] t q = .error e → rmdir t (q ++ [n]) = (.error e, t)) ∧
    (∀ (t d : DirNode) (q : List Bytes) (n : Bytes),
      resolveDir [] t q = .ok d → (alookup n d.files).isSome →
      rmdir t (q ++ [n]) = (.error (.NotADirectory (q ++ [n])), t)) ∧
    (∀ (t d : DirNode) (q : List Bytes) (n : Bytes),
      resolveDir [] t q = .ok d → alookup n d.files = none → alookup n d.subdirs = none →
      rmdir t (q ++ [n]) = (.error (.NotFound (q ++ [n])), t)) ∧
    (∀ (t d sub : DirNode) (q : List Bytes) (n : Bytes),
      resolveDir [] t q = .ok d → alookup n d.files = none →
      alookup n d.subdirs = some sub → (sub.files.isEmpty && sub.subdirs.isEmpty) = false →
      rmdir t (q ++ [n]) = (.error (.NotEmpty (q ++ [n])), t)) ∧
    (∀ (t d : DirNode) (q : List Bytes) (n : Bytes),
      resolveDir [] t q = .ok d → alookup n d.files = none →
      alookup n d.subdirs = some (.node [] []) →
      (rmdir t (q ++ [n])).1 = .ok () ∧
      ((d.subdirs.map Prod.fst).Nodup →
        resolveDir [] (rmdir t (q ++ [n])).2 (q ++ [n]) = .error (.NotFound (q ++ [n])))) ∧
    (∀ (t : DirNode) (parts : List Bytes),
      (rmdir t parts).1 = .ok () →
      parts ≠ [] ∧ ∃ d, resolveDir [] t parts.dropLast = .ok d ∧
        alookup (parts.getLastD []) d.files = none ∧
        alookup (parts.getLastD []) d.subdirs = some (.node [] [])) := by
  refine ⟨fun t => rfl, ?_, ?_, ?_, ?_, ?_, ?_⟩
  · intro t q n e h
    rw [rmdir_snoc, modAt_walk_err h]
  · intro t d q n h1 hfile
    rw [rmdir_snoc, modAt_resolve_err (f := fun d0 : DirNode =>
      if (alookup n d0.files).isSome then Except.error (Err.NotADirectory (q ++ [n]))
      else
        match alookup n d0.subdirs with
        | none => Except.error (Err.NotFound (q ++ [n]))
        | some sub =>
          if sub.files.isEmpty && sub.subdirs.isEmpty then
            Except.ok (DirNode.node d0.files (adel n d0.subdirs))
          else Except.error (Err.NotEmpty (q ++ [n])))
      (e := .NotADirectory (q ++ [n])) h1 (by simp [hfile])]
  · intro t d q n h1 hfile hsub
    rw [rmdir_snoc, modAt_resolve_err (f := fun d0 : DirNode =>
      if (alookup n d0.files).isSome then Except.error (Err.NotADirectory (q ++ [n]))
      else
        match alookup n d0.subdirs with
        | none => Except.error (Err.NotFound (q ++ [n]))
        | some sub =>
          if sub.files.isEmpty && sub.subdirs.isEmpty then
            Except.ok (DirNode.node d0.files (adel n d0.subdirs))
          else Except.error (Err.NotEmpty (q ++ [n])))
      (e := .NotFound (q ++ [n])) h1 (by simp [hfile, hsub])]
  · intro t d sub q n h1 hfile hsub hne
    rw [rmdir_snoc, modAt_resolve_err (f := fun d0 : DirNode =>
      if (alookup n d0.files).isSome then Except.error (Err.NotADirectory (q ++ [n]))
      else
        match alookup n d0.subdirs with
        | none => Except.error (Err.NotFound (q ++ [n]))
        | some sub =>
          if sub.files.isEmpty && sub.subdirs.isEmpty then
            Except.ok (DirNode.node d0.files (adel n d0.subdirs))
          else Except.error (Err.NotEmpty (q ++ [n])))
      (e := .NotEmpty (q ++ [n])) h1 (by simp [hfile, hsub, hne])]
  · intro t d q n h1 hfile hsub
    obtain ⟨t2, hm, hr⟩ := @modAt_resolve_ok q [] t d (fun d0 : DirNode =>
      if (alookup n d0.files).isSome then Except.error (Err.NotADirectory (q ++ [n]))
      else
        match alookup n d0.subdirs with
        | none => Except.error (Err.NotFound (q ++ [n]))
        | some sub =>
          if sub.files.isEmpty && sub.subdirs.isEmpty then
            Except.ok (DirNode.node d0.files (adel n d0.subdirs))
          else Except.error (Err.NotEmpty (q ++ [n])))
      (.node d.files (adel n d.subdirs)) h1 (by simp [hfile, hsub])
    rw [rmdir_snoc, hm]
    refine ⟨rfl, fun hnd => ?_⟩
    rw [resolveDir_snoc]
    simp only [hr, DirNode.subdirs_node, alookup_adel_self hnd]
    simp
  · intro t parts h
    cases parts with
    | nil => simp [rmdir] at h
    | cons a as =>
      refine ⟨by simp, ?_⟩
      rw [rmdir_ne_nil t (by simp)] at h
      cases hm : modAt [] t ((a :: as).dropLast) (fun d0 : DirNode =>
          if (alookup ((a :: as).getLastD []) d0.files).isSome then
            Except.error (Err.NotADirectory (a :: as))
          else
            match alookup ((a :: as).getLastD []) d0.subdirs with
            | none => Except.error (Err.NotFound (a :: as))
            | some sub =>
              if sub.files.isEmpty && sub.subdirs.isEmpty then
                Except.ok (DirNode.node d0.files (adel ((a :: as).getLastD []) d0.subdirs))
              else Except.error (Err.NotEmpty (a :: as))) with
      | error e =>
        simp only [hm] at h
        simp at h
      | ok t2 =>
        obtain ⟨d, d2, hres, hfr, _⟩ := modAt_ok_inv hm
        refine ⟨d, hres, ?_⟩
        split at hfr
        · exact absurd hfr (by simp)
        · rename_i hfc
          simp only [List.getLastD_eq_getLast?] at hfc hfr ⊢
          cases hsv : alookup ((a :: as).getLast?.getD ([] : Bytes)) d.subdirs with
          | none => simp [hsv] at hfr
          | some sub =>
            simp only [hsv] at hfr
            split at hfr
            · rename_i hemp
              obtain ⟨fs2, ds2⟩ := sub
              simp only [DirNode.files_node, DirNode.subdirs_node, Bool.and_eq_true,
                List.isEmpty_iff] at hemp
              refine ⟨Option.not_isSome_iff_eq_none.mp hfc, ?_⟩
              rw [hemp.1, hemp.2]
            · exact absurd hfr (by simp)

/-- Witness for C7: on a collection holding one empty directory, rmdir of
that directory succeeds and the directory is gone afterwards. -/
theorem rmdir_spec_witness :
    (rmdir (mkdirs emptyColl [[97]]).2 ([] ++ [[97]])).1 = .ok () ∧
    resolveDir [] (rmdir (mkdirs emptyColl [[97]]).2 ([] ++ [[97]])).2 ([] ++ [[97]])
      = .error (.NotFound ([] ++ [[97]])) := by
  have h := rmdir_spec.2.2.2.2.2.1 (mkdirs emptyColl [[97]]).2 (mkdirs emptyColl [[97]]).2
    [] [97] rfl rfl rfl
  exact ⟨h.1, h.2 (by decide)⟩

/-- Witness for C8: unlinking one of two files in a directory that also has
a subdirectory keeps the subdir name first and the remaining file, in
insertion order. -/
theorem unlink_list_spec_witness :
    (unlink
      (add_fileentry (add_fileentry (mkdirs emptyColl [[97], [100]]).2
        [[97], [98]] ⟨some 1, none, none, none⟩).2
        [[97], [99]] ⟨some 2, none, none, none⟩).2
      ([[97]] ++ [[98]])).1 = .ok () ∧
    list (unlink
      (add_fileentry (add_fileentry (mkdirs emptyColl [[97], [100]]).2
        [[97], [98]] ⟨some 1, none, none, none⟩).2
        [[97], [99]] ⟨some 2, none, none, none⟩).2
      ([[97]] ++ [[98]])).2 [[97]] = .ok [[100], [99]] := by
  have h := unlink_list_spec
    (add_fileentry (add_fileentry (mkdirs emptyColl [[97], [100]]).2
      [[97], [98]] ⟨some 1, none, none, none⟩).2
      [[97], [99]] ⟨some 2, none, none, none⟩).2
    (.node [([98], ⟨some 1, none, none, none⟩), ([99], ⟨some 2, none, none, none⟩)]
      [([100], .node [] [])])
    [[97]] [98] ⟨some 1, none, none, none⟩ rfl rfl rfl
  exact ⟨h.1, by rw [h.2.1]; rfl⟩

end FileCollection
